import Mathlib

/-!
Shallow embedding of the commrate classification and scoring core.

Conventions of the embedding:

* Rust strings are modelled as `List Char`; `str::len` (UTF-8 byte length)
  is modelled as character count, which coincides on ASCII text.
* `f32` arithmetic is modelled as exact real arithmetic (`ℝ`); in particular
  `(total as f32 * 0.05) as isize` is modelled as the exact `total / 20`
  (natural floor division), which agrees with the f32 computation for all
  realistic diff sizes (below 2^24).
* `EnumSet<CommitClass>` is modelled as `Finset CommitClass`.
* The regex `(?i)(\bmoved?\b)|(\brenamed?\b)` is modelled by the equivalent
  condition that some maximal run of word characters in the subject equals
  (after ASCII lowercasing) one of `move`, `moved`, `rename`, `renamed`.
-/

namespace Commrate

/-! ## Character and string helpers -/

/-- `str::trim` restricted to the whitespace characters relevant here. -/
def trimChars (l : List Char) : List Char :=
  ((l.dropWhile Char.isWhitespace).reverse.dropWhile Char.isWhitespace).reverse

/-- `str::to_ascii_lowercase`: `Char.toLower` lowercases exactly ASCII
uppercase letters. -/
def toAsciiLower (l : List Char) : List Char := l.map Char.toLower

/-- Maximal runs of characters satisfying `p`, in order. -/
def runsBy (p : Char → Bool) : List Char → List (List Char)
  | [] => []
  | c :: rest =>
    if p c then
      match runsBy p rest, rest with
      | r :: rs, c2 :: _ => if p c2 then (c :: r) :: rs else [c] :: r :: rs
      | _, _ => [[c]]
    else runsBy p rest

/-- ASCII whitespace, as used by `str::split_ascii_whitespace`. -/
def isAsciiWhitespace (c : Char) : Bool :=
  c = ' ' || c = '\t' || c = '\n' || c = Char.ofNat 12 || c = '\r'

/-- `subject.split_ascii_whitespace().count()`: the number of maximal
non-whitespace runs. -/
def countTokens (l : List Char) : ℕ :=
  (runsBy (fun c => !isAsciiWhitespace c) l).length

/-- Split on every newline character (the splitting backbone of
`str::lines`); always returns a non-empty list. -/
def splitOnNl : List Char → List (List Char)
  | [] => [[]]
  | c :: rest =>
    match splitOnNl rest with
    | [] => [[c]]
    | hd :: tl => if c = '\n' then [] :: hd :: tl else (c :: hd) :: tl

/-- `str::lines` strips one trailing carriage return from each line. -/
def stripCr (l : List Char) : List Char :=
  if l.getLast? = some '\r' then l.dropLast else l

/-- `str::lines`: split on `'\n'`, drop the final empty piece produced by a
trailing newline (the empty string yields no lines at all), and strip a
trailing `'\r'` from each line. -/
def rustLines (raw : List Char) : List (List Char) :=
  if raw = [] then []
  else
    let parts := splitOnNl raw
    let parts := if parts.getLast? = some [] then parts.dropLast else parts
    parts.map stripCr

/-! ## Message parsing (src/commit/message.rs) -/

/-- The fixed `META_KEYS` set of trailer keywords. -/
def META_KEYS : List (List Char) :=
  ["acked-by".toList, "analyzed-by".toList, "approved-by".toList,
   "assisted-by".toList, "based-on".toList, "bisected-by".toList,
   "caught-by".toList, "cc".toList, "checked-by".toList,
   "co-developed-by".toList, "fixed-by".toList, "fixes".toList,
   "found-by".toList, "investigated-by".toList, "link".toList,
   "rebased-by".toList, "reported-by".toList, "reviewed-by".toList,
   "sent-by".toList, "signed-off-by".toList, "sponsored-by".toList,
   "submitted-by".toList, "suggested-by".toList, "tested-by".toList,
   "triaged-by".toList, "written-by".toList]

/-- The trailer test applied to a message line: take the text before the
first `':'` (`line.split(':').next()`), trim it, ASCII-lowercase it and look
it up in `META_KEYS`. -/
def isMetaKey (line : List Char) : Bool :=
  META_KEYS.contains (toAsciiLower (trimChars (line.takeWhile (fun c => c ≠ ':'))))

/-- `MessageInfo` metrics obtained from the commit message. -/
structure MessageInfo where
  subject : Option (List Char)
  break_after_subject : Bool
  body_len : ℕ
  body_lines : ℕ
  body_unwrapped_lines : ℕ
  metadata_lines : ℕ
deriving DecidableEq

/-- Accumulation of `(body_len, body_lines, body_unwrapped_lines,
metadata_lines)` over the lines after the subject, exactly as in the loop of
`MessageInfo::new`. -/
def countRest : List (List Char) → ℕ × ℕ × ℕ × ℕ
  | [] => (0, 0, 0, 0)
  | line :: rest =>
    let r := countRest rest
    if isMetaKey line then
      (r.1, r.2.1, r.2.2.1, r.2.2.2 + 1)
    else
      (r.1 + line.length, r.2.1 + 1,
       r.2.2.1 + (if 80 < line.length then 1 else 0), r.2.2.2)

/-- The body of `MessageInfo::new` after line splitting: line 0 is the
subject, `break_after_subject` is set iff line 1 exists and is empty, and
every later line (including line 1) goes through the trailer test and body
accounting. -/
def processLines : List (List Char) → MessageInfo
  | [] => ⟨none, false, 0, 0, 0, 0⟩
  | subj :: rest =>
    let r := countRest rest
    ⟨some subj,
     (match rest with | [] => false | l :: _ => l.isEmpty),
     r.1, r.2.1, r.2.2.1, r.2.2.2⟩

/-- `MessageInfo::new(raw_message)`. -/
def MessageInfo.new (raw : String) : MessageInfo :=
  processLines (rustLines raw.toList)

/-! ## Grades and grade specs (src/scoring/grade.rs) -/

inductive Grade where
  | F
  | D
  | C
  | B
  | A
deriving DecidableEq

/-- A relation specification between different scores/grades. -/
inductive Relation where
  | Eq
  | Le
  | Ge
deriving DecidableEq

/-- A spec for matching grade. -/
structure GradeSpec where
  grade : Grade
  rel : Relation
deriving DecidableEq

/-- Result of `GradeSpec::from_str`, with the error messages of the source. -/
inductive ParseResult where
  | ok (spec : GradeSpec)
  | err (msg : String)
deriving DecidableEq

/-- The `InvalidGrade` error message. -/
def invalidGradeMsg : String := "grade must be one of: A, B, C, D, F"

/-- The `MissingGrade` error message. -/
def missingGradeMsg : String := "grade must be specified"

/-- The `InvalidRelation` error message. -/
def invalidRelationMsg : String := "grade relation must be one of: +, -, <empty>"

/-- The `TrailingInput` error message. -/
def trailingInputMsg : String := "grade specification should not contain extra characters"

/-- The first `match` of `GradeSpec::from_str`: the grade letter. -/
def gradeOfChar (c : Char) : Option Grade :=
  if c = 'A' ∨ c = 'a' then some Grade.A
  else if c = 'B' ∨ c = 'b' then some Grade.B
  else if c = 'C' ∨ c = 'c' then some Grade.C
  else if c = 'D' ∨ c = 'd' then some Grade.D
  else if c = 'F' ∨ c = 'f' then some Grade.F
  else none

/-- The second `match` of `GradeSpec::from_str`: the relation character. -/
def relOfChar (c : Char) : Option Relation :=
  if c = '+' then some Relation.Ge
  else if c = '-' then some Relation.Le
  else none

/-- `GradeSpec::from_str` on the character sequence of the input. -/
def GradeSpec.fromStr : List Char → ParseResult
  | [] => ParseResult.err missingGradeMsg
  | c :: rest =>
    match gradeOfChar c with
    | none => ParseResult.err invalidGradeMsg
    | some g =>
      match rest with
      | [] => ParseResult.ok ⟨g, Relation.Eq⟩
      | r :: rest2 =>
        match relOfChar r with
        | none => ParseResult.err invalidRelationMsg
        | some rel =>
          match rest2 with
          | [] => ParseResult.ok ⟨g, rel⟩
          | _ :: _ => ParseResult.err trailingInputMsg

/-- The textual form of a grade (its `Debug` representation is the letter). -/
def gradeChar : Grade → Char
  | Grade.A => 'A'
  | Grade.B => 'B'
  | Grade.C => 'C'
  | Grade.D => 'D'
  | Grade.F => 'F'

/-- The textual form of a relation: nothing for `Eq`, `+` for `Ge`, `-` for
`Le`. -/
def relSuffix : Relation → List Char
  | Relation.Eq => []
  | Relation.Ge => ['+']
  | Relation.Le => ['-']

/-- Formatting a `(grade, relation)` pair to its textual form: the grade
letter followed by the relation suffix. -/
def formatGradeSpec (g : Grade) (r : Relation) : List Char :=
  gradeChar g :: relSuffix r

/-! ## Metadata, diff and classification (src/commit) -/

/-- A commit metadata, which is easy to obtain from the repository. -/
structure CommitMetadata where
  id : String
  author : String
  parents : ℕ

/-- Statistics of specific diff. -/
structure DiffInfo where
  insertions : ℕ
  deletions : ℕ
  diff_total : ℕ
deriving DecidableEq

/-- `DiffInfo::new` sets `diff_total = insertions + deletions`. -/
def DiffInfo.new (insertions deletions : ℕ) : DiffInfo :=
  ⟨insertions, deletions, insertions + deletions⟩

inductive CommitClass where
  | MergeCommit
  | InitialCommit
  | ShortCommit
  | RefactorCommit
deriving DecidableEq

/-- Maximum diff size (lines total) for short commits. -/
def SHORT_COMMIT_LENGTH : ℕ := 25

/-- Word characters of the regex metacharacter `\b` on ASCII text. -/
def isWordChar (c : Char) : Bool := c.isAlphanum || c = '_'

/-- The alternatives of the refactor-subject regex, lowercased. -/
def refactorWords : List (List Char) :=
  ["move".toList, "moved".toList, "rename".toList, "renamed".toList]

/-- `Regex::new(r"(?i)(\bmoved?\b)|(\brenamed?\b)").is_match(subject)`:
because every alternative is delimited by word boundaries on both sides, a
match exists exactly when some maximal word-character run of the subject is,
case-insensitively, one of `move`, `moved`, `rename`, `renamed`. -/
def refactorRegexMatch (subject : List Char) : Bool :=
  (runsBy isWordChar subject).any (fun w => refactorWords.contains (toAsciiLower w))

/-- The first two insertions of `do_classify_commit` (the `Initial` and
`Short` conditions), split out as a named definition. -/
def base_classes (metadata : CommitMetadata) (diff_info : DiffInfo) : Finset CommitClass :=
  let classes : Finset CommitClass := ∅
  let classes :=
    if metadata.parents = 0 then insert CommitClass.InitialCommit classes else classes
  if diff_info.diff_total < SHORT_COMMIT_LENGTH then
    insert CommitClass.ShortCommit classes
  else classes

/-- `do_classify_commit`: `Initial` for parentless commits, `Short` for
diffs below `SHORT_COMMIT_LENGTH`, and `Refactor` when the
insertions/deletions imbalance is at most 5% of the total (f32 truncation
modelled as exact floor division by 20) and the subject matches the
refactor regex. `Merge` is never produced here. -/
def do_classify_commit (metadata : CommitMetadata) (diff_info : DiffInfo)
    (msg_info : MessageInfo) : Finset CommitClass :=
  let classes := base_classes metadata diff_info
  let allowed_diff : ℤ := (diff_info.diff_total / 20 : ℕ)
  let actual_diff : ℤ := |(diff_info.deletions : ℤ) - (diff_info.insertions : ℤ)|
  if actual_diff ≤ allowed_diff then
    match msg_info.subject with
    | some subject =>
      if refactorRegexMatch subject then
        insert CommitClass.RefactorCommit classes
      else classes
    | none => classes
  else classes

/-- A parsed and classified commit with all the data required for scoring. -/
structure CommitInfo where
  metadata : CommitMetadata
  diff_info : Option DiffInfo
  msg_info : MessageInfo
  classes : Finset CommitClass

/-- `CommitInfo::new`: stores the diff and runs classification. -/
def CommitInfo.new (metadata : CommitMetadata) (diff_info : DiffInfo)
    (msg_info : MessageInfo) : CommitInfo :=
  ⟨metadata, some diff_info, msg_info, do_classify_commit metadata diff_info msg_info⟩

/-- `CommitInfo::new_from_merge`: no diff, and the class set is exactly the
singleton `{MergeCommit}`; classification is not run. -/
def CommitInfo.new_from_merge (metadata : CommitMetadata)
    (msg_info : MessageInfo) : CommitInfo :=
  ⟨metadata, none, msg_info, {CommitClass.MergeCommit}⟩

/-! ## Rule library (src/scoring/rule.rs)

Rule scores are `f32` values in the source; they are modelled as exact real
numbers. Only `BodyLenRule` is genuinely transcendental (`ln`). -/

/-- The `SPECIAL_CLASSES` set: Short, Refactor and Initial commits are
scored in relaxed fashion. -/
def SPECIAL_CLASSES : Finset CommitClass :=
  {CommitClass.ShortCommit, CommitClass.RefactorCommit, CommitClass.InitialCommit}

/-- `commit_is_special`: the commit's class set intersects
`SPECIAL_CLASSES`. -/
def commit_is_special (c : CommitInfo) : Prop :=
  (c.classes ∩ SPECIAL_CLASSES).Nonempty

instance (c : CommitInfo) : Decidable (commit_is_special c) :=
  Finset.decidableNonempty

/-- `SubjectRule`: 1 for Initial commits; 0 for one-token subjects;
otherwise a piecewise curve over the subject length. -/
noncomputable def SubjectRule.score (c : CommitInfo) : ℝ :=
  if CommitClass.InitialCommit ∈ c.classes then 1
  else
    let subject := c.msg_info.subject.getD []
    if countTokens subject ≤ 1 then 0
    else
      let len := subject.length
      if len ≤ 10 then 0
      else if len ≤ 20 then ((len : ℝ) - 10) / 10
      else if len ≤ 70 then 1
      else if len ≤ 100 then (100 - (len : ℝ)) / 100
      else 0

/-- `BodyPresenceRule`: 1 if the body is non-empty or the commit is
special. -/
noncomputable def BodyPresenceRule.score (c : CommitInfo) : ℝ :=
  if 0 < c.msg_info.body_len ∨ commit_is_special c then 1 else 0

/-- `SubjectBodyBreakRule`: with a body, 1 iff the subject is followed by a
blank line; without a body, 1 iff the commit is special. -/
noncomputable def SubjectBodyBreakRule.score (c : CommitInfo) : ℝ :=
  if 0 < c.msg_info.body_len then
    if c.msg_info.break_after_subject then 1 else 0
  else
    if commit_is_special c then 1 else 0

/-- `BodyLenRule`: 1 for special commits and for the (defensive) missing
diff case; otherwise `ln(body_len + 1) / ln(diff_total)` clamped to at most
1. -/
noncomputable def BodyLenRule.score (c : CommitInfo) : ℝ :=
  if commit_is_special c then 1
  else
    match c.diff_info with
    | none => 1
    | some d =>
      let score := Real.log ((c.msg_info.body_len : ℝ) + 1) / Real.log (d.diff_total : ℝ)
      if 1 < score then 1 else score

/-- `BodyWrappingRule`: with no body lines, 1 iff special; otherwise one
minus the fraction of unwrapped lines. -/
noncomputable def BodyWrappingRule.score (c : CommitInfo) : ℝ :=
  if c.msg_info.body_lines = 0 then
    if commit_is_special c then 1 else 0
  else
    1 - (c.msg_info.body_unwrapped_lines : ℝ) / (c.msg_info.body_lines : ℝ)

/-- `MetadataLinesRule`: a diminishing bonus for trailer lines. -/
noncomputable def MetadataLinesRule.score (c : CommitInfo) : ℝ :=
  match c.msg_info.metadata_lines with
  | 0 => 0
  | 1 => 0.6
  | 2 => 0.8
  | _ => 1

/-! ## Scorer (src/scoring/scorer.rs, rule list and weights from
`init_scorer` in src/main.rs) -/

inductive Score where
  | Ignored
  | Scored (score : ℕ) (grade : Grade)
deriving DecidableEq

/-- The accumulation loop of `score_internal` over the fixed rule list of
`init_scorer`: `score_accum += 100.0 * rule.score(commit) * weight`. -/
noncomputable def weightedSum (c : CommitInfo) : ℝ :=
  100 * SubjectRule.score c * 0.3
    + 100 * BodyPresenceRule.score c * 0.1
    + 100 * SubjectBodyBreakRule.score c * 0.1
    + 100 * BodyLenRule.score c * 0.25
    + 100 * BodyWrappingRule.score c * 0.25
    + 100 * MetadataLinesRule.score c * 0.05

/-- The clamping and rounding step of `score_internal`: 100 if the
accumulated sum exceeds 100, otherwise the sum rounded to the nearest
integer (`f32::round` rounds half away from zero, which on the non-negative
values occurring here is `round`; the saturating `as u8` cast is `toNat` on
this range). -/
noncomputable def clampedScore (c : CommitInfo) : ℕ :=
  if 100 < weightedSum c then 100 else (round (weightedSum c)).toNat

/-- The grade breakpoints of `score_internal`. -/
def gradeOfScore (score : ℕ) : Grade :=
  if score ≤ 19 then Grade.F
  else if score ≤ 39 then Grade.D
  else if score ≤ 59 then Grade.C
  else if score ≤ 79 then Grade.B
  else Grade.A

/-- `Scorer::score_internal` with the fixed rule list of `init_scorer`:
merge commits are ignored, the rest get the clamped weighted score and its
grade. -/
noncomputable def scoreInternal (c : CommitInfo) : Score :=
  if CommitClass.MergeCommit ∈ c.classes then Score.Ignored
  else Score.Scored (clampedScore c) (gradeOfScore (clampedScore c))

/-- All six rule scores of a commit lie in `[0, 1]`. -/
def ruleScoresUnit (c : CommitInfo) : Prop :=
  (0 ≤ SubjectRule.score c ∧ SubjectRule.score c ≤ 1)
    ∧ (0 ≤ BodyPresenceRule.score c ∧ BodyPresenceRule.score c ≤ 1)
    ∧ (0 ≤ SubjectBodyBreakRule.score c ∧ SubjectBodyBreakRule.score c ≤ 1)
    ∧ (0 ≤ BodyLenRule.score c ∧ BodyLenRule.score c ≤ 1)
    ∧ (0 ≤ BodyWrappingRule.score c ∧ BodyWrappingRule.score c ≤ 1)
    ∧ (0 ≤ MetadataLinesRule.score c ∧ MetadataLinesRule.score c ≤ 1)

/-! ## Theorems -/

/-- C1 counterexample: on the message `"Fix bug\n\nSigned-off-by: A <a@x.com>"`
the parser does not report `body_lines = 0` — the blank separator line is
counted as a body line. -/
theorem message_scenario_counterexample :
    ¬ ((MessageInfo.new "Fix bug\n\nSigned-off-by: A <a@x.com>").subject
          = some "Fix bug".toList
        ∧ (MessageInfo.new "Fix bug\n\nSigned-off-by: A <a@x.com>").break_after_subject = true
        ∧ (MessageInfo.new "Fix bug\n\nSigned-off-by: A <a@x.com>").body_len = 0
        ∧ (MessageInfo.new "Fix bug\n\nSigned-off-by: A <a@x.com>").body_lines = 0
        ∧ (MessageInfo.new "Fix bug\n\nSigned-off-by: A <a@x.com>").metadata_lines = 1) := by
  decide

/-- C1 (amended): parsing `"Fix bug\n\nSigned-off-by: A <a@x.com>"` yields
`subject = "Fix bug"`, `break_after_subject = true`, `body_len = 0`,
`body_lines = 1` (the blank separator line is counted as a body line of
length zero) and `metadata_lines = 1`. -/
theorem message_scenario_fix_bug :
    (MessageInfo.new "Fix bug\n\nSigned-off-by: A <a@x.com>").subject
        = some "Fix bug".toList
      ∧ (MessageInfo.new "Fix bug\n\nSigned-off-by: A <a@x.com>").break_after_subject = true
      ∧ (MessageInfo.new "Fix bug\n\nSigned-off-by: A <a@x.com>").body_len = 0
      ∧ (MessageInfo.new "Fix bug\n\nSigned-off-by: A <a@x.com>").body_lines = 1
      ∧ (MessageInfo.new "Fix bug\n\nSigned-off-by: A <a@x.com>").metadata_lines = 1 := by
  decide

/-- Helper: the body-line counter counts exactly the lines failing the
trailer test. -/
theorem countRest_body_lines (ls : List (List Char)) :
    (countRest ls).2.1 = (ls.filter (fun l => !isMetaKey l)).length := by
  induction ls with
  | nil => rfl
  | cons l ls ih =>
    simp only [countRest, List.filter]
    cases h : isMetaKey l <;> simp [h, ih]

/-- C10: every line after the subject that fails the trailer test is counted
as a body line, even when it is empty (the empty key is not a trailer
keyword); consequently a message of a subject, one blank line and one
trailer line has `body_lines = 1` and `body_len = 0`. -/
theorem blank_line_counts_as_body :
    (∀ ls, (processLines ls).body_lines
        = ((ls.drop 1).filter (fun l => !isMetaKey l)).length)
      ∧ isMetaKey [] = false
      ∧ (∀ s t, isMetaKey t = true →
          (processLines [s, [], t]).body_lines = 1
            ∧ (processLines [s, [], t]).body_len = 0) := by
  refine ⟨?_, by decide, ?_⟩
  · intro ls
    cases ls with
    | nil => rfl
    | cons subj rest => simp [processLines, countRest_body_lines]
  · intro s t ht
    constructor <;>
      simp [processLines, countRest, ht, (by decide : isMetaKey [] = false)]

/-- C10 witness: a concrete subject + blank + trailer message. -/
theorem blank_line_counts_as_body_witness :
    isMetaKey "Signed-off-by: A <a@x.com>".toList = true
      ∧ (processLines ["Fix bug".toList, [], "Signed-off-by: A <a@x.com>".toList]).body_lines = 1 :=
  ⟨by decide,
   (blank_line_counts_as_body.2.2 "Fix bug".toList "Signed-off-by: A <a@x.com>".toList
      (by decide)).1⟩

/-- C5: `GradeSpec` parsing succeeds exactly on a grade letter (one of
A, B, C, D, F, case-insensitively) optionally followed by `+` (Ge) or `-`
(Le); the empty string fails with the MissingGrade error, a non-letter first
character with the InvalidGrade error, an unrecognized second character with
the InvalidRelation error, and any input remaining after the relation with
the TrailingInput error. -/
theorem gradespec_parse_characterization :
    (GradeSpec.fromStr [] = ParseResult.err missingGradeMsg)
      ∧ (∀ c, gradeOfChar c = none
          ↔ c ∉ (['A', 'a', 'B', 'b', 'C', 'c', 'D', 'd', 'F', 'f'] : List Char))
      ∧ (relOfChar '+' = some Relation.Ge ∧ relOfChar '-' = some Relation.Le
          ∧ ∀ r, r ∉ (['+', '-'] : List Char) → relOfChar r = none)
      ∧ (∀ c rest, gradeOfChar c = none →
          GradeSpec.fromStr (c :: rest) = ParseResult.err invalidGradeMsg)
      ∧ (∀ c g, gradeOfChar c = some g →
          GradeSpec.fromStr [c] = ParseResult.ok ⟨g, Relation.Eq⟩)
      ∧ (∀ c g r rel, gradeOfChar c = some g → relOfChar r = some rel →
          GradeSpec.fromStr [c, r] = ParseResult.ok ⟨g, rel⟩)
      ∧ (∀ c g r rest, gradeOfChar c = some g → relOfChar r = none →
          GradeSpec.fromStr (c :: r :: rest) = ParseResult.err invalidRelationMsg)
      ∧ (∀ c g r rel x rest, gradeOfChar c = some g → relOfChar r = some rel →
          GradeSpec.fromStr (c :: r :: x :: rest) = ParseResult.err trailingInputMsg) := by
  refine ⟨rfl, ?_, ⟨by decide, by decide, ?_⟩, ?_, ?_, ?_, ?_, ?_⟩
  · intro c
    simp only [gradeOfChar]
    split_ifs with h1 h2 h3 h4 h5 <;> simp_all <;> tauto
  · intro r hr
    simp only [relOfChar]
    split_ifs with h1 h2 <;> simp_all
  · intro c rest h
    simp [GradeSpec.fromStr, h]
  · intro c g h
    simp [GradeSpec.fromStr, h]
  · intro c g r rel hg hr
    simp [GradeSpec.fromStr, hg, hr]
  · intro c g r rest hg hr
    simp [GradeSpec.fromStr, hg, hr]
  · intro c g r rel x rest hg hr
    simp [GradeSpec.fromStr, hg, hr]

/-- C5 witness: concrete inputs exercising the hypotheses of the
characterization. -/
theorem gradespec_parse_characterization_witness :
    (gradeOfChar 'x' = none
      ∧ GradeSpec.fromStr ['x'] = ParseResult.err invalidGradeMsg)
      ∧ (gradeOfChar 'c' = some Grade.C ∧ relOfChar '+' = some Relation.Ge
        ∧ GradeSpec.fromStr ['c', '+'] = ParseResult.ok ⟨Grade.C, Relation.Ge⟩) :=
  ⟨⟨by decide, gradespec_parse_characterization.2.2.2.1 'x' [] (by decide)⟩,
   ⟨by decide, by decide,
    gradespec_parse_characterization.2.2.2.2.2.1 'c' Grade.C '+' Relation.Ge
      (by decide) (by decide)⟩⟩

/-- C6: formatting a `(grade, relation)` pair (grade letter, then `+` for
Ge, `-` for Le, nothing for Eq) and parsing it back recovers the pair, both
for the upper-case and the lower-case letter. -/
theorem format_parse_roundtrip :
    ∀ g r, GradeSpec.fromStr (formatGradeSpec g r) = ParseResult.ok ⟨g, r⟩
      ∧ GradeSpec.fromStr (toAsciiLower (formatGradeSpec g r)) = ParseResult.ok ⟨g, r⟩ := by
  intro g r
  cases g <;> cases r <;> exact ⟨by decide, by decide⟩

/-- C2: any commit whose class set contains `MergeCommit` is scored
`Ignored`, whatever its message metrics and diff are. -/
theorem merge_commit_ignored (c : CommitInfo)
    (h : CommitClass.MergeCommit ∈ c.classes) :
    scoreInternal c = Score.Ignored := by
  simp [scoreInternal, h]

/-- C2 witness: a concrete merge-built commit is ignored. -/
theorem merge_commit_ignored_witness :
    CommitClass.MergeCommit
        ∈ (CommitInfo.new_from_merge ⟨"id0", "alice", 2⟩
            (MessageInfo.new "Merge branch x\n\nbody")).classes
      ∧ scoreInternal (CommitInfo.new_from_merge ⟨"id0", "alice", 2⟩
            (MessageInfo.new "Merge branch x\n\nbody")) = Score.Ignored :=
  ⟨by decide, merge_commit_ignored _ (by decide)⟩

/-- Helper: membership in the Initial/Short part of classification. -/
theorem mem_base_classes (m : CommitMetadata) (d : DiffInfo) (cl : CommitClass) :
    cl ∈ base_classes m d
      ↔ (cl = CommitClass.InitialCommit ∧ m.parents = 0)
        ∨ (cl = CommitClass.ShortCommit ∧ d.diff_total < SHORT_COMMIT_LENGTH) := by
  unfold base_classes
  split_ifs with h1 h2 h3 <;> simp [Finset.mem_insert] <;>
    first
      | tauto
      | omega

/-- Helper: membership in the full classification result. -/
theorem mem_do_classify_commit (m : CommitMetadata) (d : DiffInfo)
    (msg : MessageInfo) (cl : CommitClass) :
    cl ∈ do_classify_commit m d msg
      ↔ cl ∈ base_classes m d
        ∨ (cl = CommitClass.RefactorCommit
            ∧ |(d.deletions : ℤ) - (d.insertions : ℤ)| ≤ ((d.diff_total / 20 : ℕ) : ℤ)
            ∧ ∃ s, msg.subject = some s ∧ refactorRegexMatch s = true) := by
  unfold do_classify_commit
  dsimp only
  rw [Int.natCast_div]
  split_ifs with h1
  · cases hs : msg.subject with
    | none => simp [hs]
    | some s =>
      by_cases hr : refactorRegexMatch s <;>
        · simp [hs, hr, h1, Finset.mem_insert]
          try tauto
  · cases hs : msg.subject with
    | none => simp [hs, h1]
    | some s =>
      simp [hs, h1]
      intro hcl hle hr
      exact absurd hle (by simpa using h1)

/-- C4: classification includes `Refactor` exactly when the
insertions/deletions imbalance is at most `floor(diff_total * 0.05)` (the
floor division `diff_total / 20`) and the subject exists and matches the
case-insensitive word-boundary pattern for move/moved/rename/renamed; the
match is position- and case-independent, so "I moved X", "RENAMED Y" and
"rename Z" qualify while "movement" does not. -/
theorem refactor_classification_iff :
    (∀ metadata diff_info msg_info,
        CommitClass.RefactorCommit ∈ do_classify_commit metadata diff_info msg_info
          ↔ (|(diff_info.deletions : ℤ) - (diff_info.insertions : ℤ)|
                ≤ ((diff_info.diff_total / 20 : ℕ) : ℤ)
              ∧ ∃ s, msg_info.subject = some s ∧ refactorRegexMatch s = true))
      ∧ refactorRegexMatch "I moved X".toList = true
      ∧ refactorRegexMatch "RENAMED Y".toList = true
      ∧ refactorRegexMatch "rename Z".toList = true
      ∧ refactorRegexMatch "movement".toList = false := by
  refine ⟨?_, by decide, by decide, by decide, by decide⟩
  intro metadata diff_info msg_info
  rw [mem_do_classify_commit, mem_base_classes]
  simp

/-- C9: a commit built with a diff stores that diff and never carries the
`Merge` class (classification cannot produce it); a commit built by the
merge constructor stores no diff and carries exactly the singleton class set
`{Merge}`, so `Merge` excludes `Initial`, `Short` and `Refactor`. -/
theorem merge_class_exclusive :
    (∀ metadata diff_info msg_info,
        (CommitInfo.new metadata diff_info msg_info).diff_info = some diff_info
          ∧ CommitClass.MergeCommit ∉ (CommitInfo.new metadata diff_info msg_info).classes)
      ∧ (∀ metadata msg_info,
          (CommitInfo.new_from_merge metadata msg_info).diff_info = none
            ∧ (CommitInfo.new_from_merge metadata msg_info).classes
                = {CommitClass.MergeCommit})
      ∧ (∀ metadata diff_info msg_info,
          CommitClass.MergeCommit ∉ do_classify_commit metadata diff_info msg_info) := by
  refine ⟨?_, ?_, ?_⟩
  · intro metadata diff_info msg_info
    refine ⟨rfl, ?_⟩
    rw [CommitInfo.new]
    rw [mem_do_classify_commit, mem_base_classes]
    simp
  · intro metadata msg_info
    exact ⟨rfl, rfl⟩
  · intro metadata diff_info msg_info
    rw [mem_do_classify_commit, mem_base_classes]
    simp

/-- C3: a commit without the `Merge` class is scored
`Scored{score, grade}`, where the numeric score is the weighted rule sum
clamped to 100 and rounded to the nearest integer — hence never above 100 —
and the grade follows the fixed breakpoints F `0-19`, D `20-39`, C `40-59`,
B `60-79`, A `80-100`. -/
theorem nonmerge_commit_scored (c : CommitInfo)
    (h : CommitClass.MergeCommit ∉ c.classes) :
    scoreInternal c = Score.Scored (clampedScore c) (gradeOfScore (clampedScore c))
      ∧ clampedScore c
          = (if 100 < weightedSum c then 100 else (round (weightedSum c)).toNat)
      ∧ clampedScore c ≤ 100
      ∧ (∀ n : ℕ,
          (gradeOfScore n = Grade.F ↔ n ≤ 19)
            ∧ (gradeOfScore n = Grade.D ↔ 20 ≤ n ∧ n ≤ 39)
            ∧ (gradeOfScore n = Grade.C ↔ 40 ≤ n ∧ n ≤ 59)
            ∧ (gradeOfScore n = Grade.B ↔ 60 ≤ n ∧ n ≤ 79)
            ∧ (gradeOfScore n = Grade.A ↔ 80 ≤ n)) := by
  refine ⟨by simp [scoreInternal, h], rfl, ?_, ?_⟩
  · unfold clampedScore
    split_ifs with hw
    · exact le_refl 100
    · have hle : weightedSum c ≤ 100 := not_lt.mp hw
      have hround : round (weightedSum c) ≤ 100 := by
        rw [round_eq]
        calc ⌊weightedSum c + 1 / 2⌋ ≤ ⌊(100 : ℝ) + 1 / 2⌋ :=
              Int.floor_le_floor (by linarith)
          _ = 100 := by norm_num
      omega
  · intro n
    unfold gradeOfScore
    split_ifs with h1 h2 h3 h4 <;>
      refine ⟨?_, ?_, ?_, ?_, ?_⟩ <;> simp_all <;> omega

/-- C3 witness: a concrete non-merge commit. -/
theorem nonmerge_commit_scored_witness :
    CommitClass.MergeCommit
        ∉ (CommitInfo.new ⟨"id1", "bob", 1⟩ (DiffInfo.new 30 0)
            (MessageInfo.new "Some ordinary subject")).classes
      ∧ clampedScore (CommitInfo.new ⟨"id1", "bob", 1⟩ (DiffInfo.new 30 0)
            (MessageInfo.new "Some ordinary subject")) ≤ 100 :=
  ⟨by decide,
   (nonmerge_commit_scored _ (by decide)).2.2.1⟩

/-- C7: `SubjectRule` scores 1 for Initial commits unconditionally, 0 for
subjects of at most one whitespace-separated token, and otherwise depends
only on the subject length: 0 up to 10, `(len - 10)/10` for 11-20, 1 for
21-70, `(100 - len)/100` for 71-100, and 0 above 100. -/
theorem subject_rule_piecewise (c : CommitInfo) :
    (CommitClass.InitialCommit ∈ c.classes → SubjectRule.score c = 1)
      ∧ (CommitClass.InitialCommit ∉ c.classes →
          countTokens (c.msg_info.subject.getD []) ≤ 1 → SubjectRule.score c = 0)
      ∧ (CommitClass.InitialCommit ∉ c.classes →
          2 ≤ countTokens (c.msg_info.subject.getD []) →
          (((c.msg_info.subject.getD []).length ≤ 10 → SubjectRule.score c = 0)
            ∧ (11 ≤ (c.msg_info.subject.getD []).length
                ∧ (c.msg_info.subject.getD []).length ≤ 20 →
                SubjectRule.score c
                  = (((c.msg_info.subject.getD []).length : ℝ) - 10) / 10)
            ∧ (21 ≤ (c.msg_info.subject.getD []).length
                ∧ (c.msg_info.subject.getD []).length ≤ 70 →
                SubjectRule.score c = 1)
            ∧ (71 ≤ (c.msg_info.subject.getD []).length
                ∧ (c.msg_info.subject.getD []).length ≤ 100 →
                SubjectRule.score c
                  = (100 - ((c.msg_info.subject.getD []).length : ℝ)) / 100)
            ∧ (100 < (c.msg_info.subject.getD []).length →
                SubjectRule.score c = 0))) := by
  refine ⟨?_, ?_, ?_⟩
  · intro h
    simp [SubjectRule.score, h]
  · intro h ht
    simp [SubjectRule.score, h, ht]
  · intro h ht
    have ht1 : ¬ countTokens (c.msg_info.subject.getD []) ≤ 1 := by omega
    refine ⟨?_, ?_, ?_, ?_, ?_⟩ <;> intro hlen <;>
      simp only [SubjectRule.score, h, ht1, if_false, if_neg] <;>
      split_ifs <;> first | rfl | omega

/-- C7 witness: a concrete Initial commit scores 1, and a concrete ordinary
commit with a 21-70 character subject scores 1 through the piecewise
curve. -/
theorem subject_rule_piecewise_witness :
    (CommitClass.InitialCommit
        ∈ (CommitInfo.new ⟨"id2", "carol", 0⟩ (DiffInfo.new 100 0)
            (MessageInfo.new "Initial commit")).classes
      ∧ SubjectRule.score (CommitInfo.new ⟨"id2", "carol", 0⟩ (DiffInfo.new 100 0)
            (MessageInfo.new "Initial commit")) = 1)
      ∧ (CommitClass.InitialCommit
          ∉ (CommitInfo.new ⟨"id1", "bob", 1⟩ (DiffInfo.new 30 0)
              (MessageInfo.new "Some ordinary subject")).classes
        ∧ SubjectRule.score (CommitInfo.new ⟨"id1", "bob", 1⟩ (DiffInfo.new 30 0)
              (MessageInfo.new "Some ordinary subject")) = 1) :=
  ⟨⟨by decide,
    (subject_rule_piecewise _).1 (by decide)⟩,
   ⟨by decide,
    ((subject_rule_piecewise _).2.2 (by decide) (by decide)).2.2.1 (by decide)⟩⟩

/-- Helper: in the body accounting, at most every body line is unwrapped. -/
theorem countRest_unwrapped_le (ls : List (List Char)) :
    (countRest ls).2.2.1 ≤ (countRest ls).2.1 := by
  induction ls with
  | nil => simp [countRest]
  | cons l ls ih =>
    simp only [countRest]
    split_ifs <;> simp <;> omega

/-- Helper: parsed messages satisfy `body_unwrapped_lines ≤ body_lines`. -/
theorem msg_new_unwrapped_le (raw : String) :
    (MessageInfo.new raw).body_unwrapped_lines ≤ (MessageInfo.new raw).body_lines := by
  unfold MessageInfo.new
  cases h : rustLines raw.toList with
  | nil => simp [processLines]
  | cons subj rest => simpa [processLines] using countRest_unwrapped_le rest

/-- Helper: `SubjectRule` stays in the unit interval. -/
theorem subject_score_unit (c : CommitInfo) :
    0 ≤ SubjectRule.score c ∧ SubjectRule.score c ≤ 1 := by
  unfold SubjectRule.score
  dsimp only
  set n := (c.msg_info.subject.getD []).length with hn
  split_ifs with h1 h2 h3 h4 h5 h6
  · exact ⟨zero_le_one, le_refl 1⟩
  · exact ⟨le_refl 0, zero_le_one⟩
  · exact ⟨le_refl 0, zero_le_one⟩
  · have hl : (10 : ℝ) ≤ n := by exact_mod_cast (by omega : (10 : ℕ) ≤ n)
    have hu : (n : ℝ) ≤ 20 := by exact_mod_cast h4
    constructor
    · exact div_nonneg (by linarith) (by norm_num)
    · rw [div_le_one (by norm_num)]
      linarith
  · exact ⟨zero_le_one, le_refl 1⟩
  · have hl : (71 : ℝ) ≤ n := by exact_mod_cast (by omega : (71 : ℕ) ≤ n)
    have hu : (n : ℝ) ≤ 100 := by exact_mod_cast h6
    constructor
    · exact div_nonneg (by linarith) (by norm_num)
    · rw [div_le_one (by norm_num)]
      linarith
  · exact ⟨le_refl 0, zero_le_one⟩

/-- Helper: `BodyPresenceRule` stays in the unit interval. -/
theorem body_presence_score_unit (c : CommitInfo) :
    0 ≤ BodyPresenceRule.score c ∧ BodyPresenceRule.score c ≤ 1 := by
  unfold BodyPresenceRule.score
  split_ifs <;> norm_num

/-- Helper: `SubjectBodyBreakRule` stays in the unit interval. -/
theorem break_score_unit (c : CommitInfo) :
    0 ≤ SubjectBodyBreakRule.score c ∧ SubjectBodyBreakRule.score c ≤ 1 := by
  unfold SubjectBodyBreakRule.score
  split_ifs <;> norm_num

/-- Helper: `BodyLenRule` stays in the unit interval: the logarithms of the
natural inputs are non-negative and the quotient is clamped at 1. -/
theorem body_len_score_unit (c : CommitInfo) :
    0 ≤ BodyLenRule.score c ∧ BodyLenRule.score c ≤ 1 := by
  unfold BodyLenRule.score
  split_ifs with h1
  · exact ⟨zero_le_one, le_refl 1⟩
  · cases hd : c.diff_info with
    | none => exact ⟨zero_le_one, le_refl 1⟩
    | some d =>
      dsimp only
      split_ifs with h2
      · exact ⟨zero_le_one, le_refl 1⟩
      · constructor
        · refine div_nonneg (Real.log_nonneg ?_) (Real.log_natCast_nonneg _)
          have : (0 : ℝ) ≤ (c.msg_info.body_len : ℝ) := Nat.cast_nonneg _
          linarith
        · exact not_lt.mp h2

/-- Helper: `BodyWrappingRule` stays in the unit interval whenever at most
every body line is unwrapped. -/
theorem body_wrapping_score_unit (c : CommitInfo)
    (h : c.msg_info.body_unwrapped_lines ≤ c.msg_info.body_lines) :
    0 ≤ BodyWrappingRule.score c ∧ BodyWrappingRule.score c ≤ 1 := by
  unfold BodyWrappingRule.score
  split_ifs with h1 h2
  · exact ⟨zero_le_one, le_refl 1⟩
  · exact ⟨le_refl 0, zero_le_one⟩
  · have hpos : (0 : ℝ) < (c.msg_info.body_lines : ℝ) := by
      exact_mod_cast Nat.pos_of_ne_zero h1
    have hfrac0 : (0 : ℝ) ≤ (c.msg_info.body_unwrapped_lines : ℝ) / (c.msg_info.body_lines : ℝ) :=
      div_nonneg (Nat.cast_nonneg _) (Nat.cast_nonneg _)
    have hfrac1 : (c.msg_info.body_unwrapped_lines : ℝ) / (c.msg_info.body_lines : ℝ) ≤ 1 := by
      rw [div_le_one hpos]
      exact_mod_cast h
    exact ⟨by linarith, by linarith⟩

/-- Helper: `MetadataLinesRule` stays in the unit interval. -/
theorem metadata_score_unit (c : CommitInfo) :
    0 ≤ MetadataLinesRule.score c ∧ MetadataLinesRule.score c ≤ 1 := by
  unfold MetadataLinesRule.score
  rcases hm : c.msg_info.metadata_lines with _ | _ | _ | k <;>
    simp [hm] <;> norm_num

/-- C8: every rule score of a commit built by either public constructor
over a parsed message lies in `[0, 1]`; moreover a non-special commit built
with a diff necessarily has `diff_total ≥ 25` (smaller diffs are classified
`Short`), which is what keeps the `BodyLenRule` logarithm quotient
well-behaved. -/
theorem rule_scores_unit_interval :
    (∀ metadata ins del raw,
        ruleScoresUnit (CommitInfo.new metadata (DiffInfo.new ins del) (MessageInfo.new raw)))
      ∧ (∀ metadata raw,
          ruleScoresUnit (CommitInfo.new_from_merge metadata (MessageInfo.new raw)))
      ∧ (∀ metadata ins del raw,
          ¬ commit_is_special
              (CommitInfo.new metadata (DiffInfo.new ins del) (MessageInfo.new raw)) →
          25 ≤ (DiffInfo.new ins del).diff_total) := by
  refine ⟨?_, ?_, ?_⟩
  · intro metadata ins del raw
    exact ⟨subject_score_unit _, body_presence_score_unit _, break_score_unit _,
      body_len_score_unit _, body_wrapping_score_unit _ (msg_new_unwrapped_le raw),
      metadata_score_unit _⟩
  · intro metadata raw
    exact ⟨subject_score_unit _, body_presence_score_unit _, break_score_unit _,
      body_len_score_unit _, body_wrapping_score_unit _ (msg_new_unwrapped_le raw),
      metadata_score_unit _⟩
  · intro metadata ins del raw hns
    by_contra hlt
    apply hns
    have hshort : CommitClass.ShortCommit
        ∈ do_classify_commit metadata (DiffInfo.new ins del) (MessageInfo.new raw) := by
      rw [mem_do_classify_commit]
      refine Or.inl ?_
      rw [mem_base_classes]
      refine Or.inr ⟨rfl, ?_⟩
      unfold SHORT_COMMIT_LENGTH
      unfold DiffInfo.new at hlt ⊢
      omega
    exact ⟨CommitClass.ShortCommit, Finset.mem_inter.2 ⟨hshort, by decide⟩⟩

/-- C8 witness: a concrete non-special commit with a 30-line diff. -/
theorem rule_scores_unit_interval_witness :
    ¬ commit_is_special
        (CommitInfo.new ⟨"id1", "bob", 1⟩ (DiffInfo.new 30 0)
          (MessageInfo.new "Some ordinary subject"))
      ∧ 25 ≤ (DiffInfo.new 30 0).diff_total :=
  ⟨by decide,
   rule_scores_unit_interval.2.2 ⟨"id1", "bob", 1⟩ 30 0 "Some ordinary subject" (by decide)⟩

end Commrate
